import Mathlib

/-!
A verification development for the SET-card solver `SET_solver.py`.

The program searches a hand of SET cards for a valid "SET": a triple of
cards whose values are, for every property index, either all identical or
all pairwise distinct.  The embedding below translates the data model
(`Card`, the hand as the ordered duplicate-free card list produced by the
backing hash set), the third-card completion rule
(`Hand.calculate_third_card`), both search strategies (`Hand.find_set`,
`Hand.find_set_brute_force`) and the ground-truth validity check
(`is_valid_SET` from `test.py`) into executable Lean definitions, and
proves the spec's properties about them.

Representation choices:
* a `Card` carries only its `values` list; the Python object's `p` is
  `len(values)` and `v` is the constant `3`, both derived attributes;
* a hand is the ordered list `list(self.cards)` obtained from the backing
  Python set: an arbitrary but fixed duplicate-free ordering.  Theorems
  quantify over every such list, so they cover every iteration order the
  Python set may present;
* Python's `IndexError` is modelled by `Option`/`none` in the definitions
  whose source can actually raise (`Card.__eq__` on a too-short right
  operand, and the exception-aware copies of the search pipeline used for
  the error-handling claim).
-/

namespace SETSolver

/-- A SET card (`Card.__init__`): the constructor stores the list `values`;
the attribute `p` is derived as `len(values)` and `v` is fixed at `3`. -/
structure Card where
  values : List Nat
deriving DecidableEq

/-- `self.p = len(values)` from `Card.__init__`. -/
def Card.p (c : Card) : Nat := c.values.length

/-- `self.v = 3` from `Card.__init__` (the algorithm depends on `v = 3`). -/
def Card.v (_ : Card) : Nat := 3

/-- `Card.__eq__` walks `enumerate(self.values)` and indexes
`other.values[index]`.  `some b` models a normal boolean return; `none`
models the `IndexError` raised when `other.values` runs out while entries
of `self.values` remain (the code performs no length check). -/
def eqValues : List Nat → List Nat → Option Bool
  | [], _ => some true
  | _ :: _, [] => none
  | v :: vs, w :: ws => if v ≠ w then some false else eqValues vs ws

/-- Python `a == b` on cards: `Card.__eq__` applied to the value lists. -/
def Card.eqPy (a b : Card) : Option Bool := eqValues a.values b.values

/-- `Card.__hash__` returns `hash(tuple(self.values))`: a stable key derived
from the value sequence, modelled as the value sequence itself. -/
def Card.hashKey (c : Card) : List Nat := c.values

/-- One property of the third card (`Hand.calculate_third_card` loop body):
if the two values agree the third card repeats them, otherwise it takes
`list(set(range(3)) - {v1, v2})[0]`, i.e. the first element, in ascending
order, of `{0, 1, 2}` with `v1` and `v2` removed. -/
def thirdValue (v1 v2 : Nat) : Nat :=
  if v1 = v2 then v1
  else ((List.range 3).filter fun x => x != v1 && x != v2).headD 0

/-- `Hand.calculate_third_card`: builds the value list of the completing
third card, property by property over `range(card1.p)`. -/
def calculate_third_card (card1 card2 : Card) : Card :=
  ⟨(List.range card1.p).map fun i =>
    thirdValue (card1.values.getD i 0) (card2.values.getD i 0)⟩

/-- `Hand.find_card`: membership of a card in the hand (`card in self.cards`). -/
def find_card (hand : List Card) (card : Card) : Bool := decide (card ∈ hand)

/-- `itertools.combinations(l, 2)`: all position-ordered pairs `(l[i], l[j])`
with `i < j`, in lexicographic order of `(i, j)`. -/
def pairs : List Card → List (Card × Card)
  | [] => []
  | c :: rest => (rest.map fun d => (c, d)) ++ pairs rest

/-- The shared search loop of `Hand.find_set` and
`Hand.find_set_brute_force`: for each candidate pair compute the third
card, test membership in the hand, and return the first hit; `none` when
every pair fails. -/
def searchPairs (hand : List Card) : List (Card × Card) → Option (Card × Card × Card)
  | [] => none
  | (c1, c2) :: rest =>
    if find_card hand (calculate_third_card c1 c2) then
      some (c1, c2, calculate_third_card c1 c2)
    else searchPairs hand rest

/-- `Hand.find_set`: split the ordered card list into
`list(self.cards)[:size // 2]` and `list(self.cards)[size // 2:]`, take the
pairs within the first part followed by the pairs within the second part,
and run the search loop over that pair list. -/
def find_set (hand : List Card) : Option (Card × Card × Card) :=
  searchPairs hand
    (pairs (hand.take (hand.length / 2)) ++ pairs (hand.drop (hand.length / 2)))

/-- `Hand.find_set_brute_force`: run the search loop over all pairs of the
whole hand. -/
def find_set_brute_force (hand : List Card) : Option (Card × Card × Card) :=
  searchPairs hand (pairs hand)

/-- `len(set(values))` from `test.py`: the number of distinct entries. -/
def distinctValueCount (values : List Nat) : Nat := values.dedup.length

/-- `is_valid_SET` from `test.py`, specialised to a triple: for every
property index `i` of the first card, the three values at `i` must not
satisfy `1 < len(set(values)) < 3`. -/
def is_valid_SET (c1 c2 c3 : Card) : Bool :=
  (List.range c1.p).all fun i =>
    !(decide (1 < distinctValueCount
        [c1.values.getD i 0, c2.values.getD i 0, c3.values.getD i 0]) &&
      decide (distinctValueCount
        [c1.values.getD i 0, c2.values.getD i 0, c3.values.getD i 0] < 3))

/-- The per-index condition of `is_valid_SET` as a proposition: the three
values are all identical or all pairwise distinct. -/
abbrev propAllSameOrDistinct (x y z : Nat) : Prop :=
  ¬(1 < distinctValueCount [x, y, z] ∧ distinctValueCount [x, y, z] < 3)

/-- Ground truth for completeness: the hand contains a valid SET, i.e. some
3-element subset (three pairwise-distinct member cards) passes
`is_valid_SET`. -/
def hasSET (hand : List Card) : Prop :=
  ∃ a b c, a ∈ hand ∧ b ∈ hand ∧ c ∈ hand ∧
    a ≠ b ∧ a ≠ c ∧ b ≠ c ∧ is_valid_SET a b c = true

/-- Exception-aware copy of the `calculate_third_card` loop over a list of
property indices: `c2.values[i]` raises `IndexError` (modelled `none`) when
`card2` has fewer properties than `card1`. -/
def thirdValuesE (c1 c2 : Card) : List Nat → Option (List Nat)
  | [] => some []
  | i :: rest =>
    match c1.values[i]?, c2.values[i]?, thirdValuesE c1 c2 rest with
    | some v1, some v2, some vs => some (thirdValue v1 v2 :: vs)
    | _, _, _ => none

/-- Exception-aware `Hand.calculate_third_card`: `none` models an
`IndexError` escaping the call. -/
def calculate_third_cardE (c1 c2 : Card) : Option Card :=
  match thirdValuesE c1 c2 (List.range c1.p) with
  | some vs => some ⟨vs⟩
  | none => none

/-- Exception-aware search loop: the outer `Option` is the error channel
(`none` = an exception escapes), the inner `Option` is the program's own
found/not-found result.  Membership (`find_card`) cannot raise: the backing
set compares a probe only against hash-equal elements, and hash-equal cards
have identical value lists, on which `Card.__eq__` returns normally. -/
def searchPairsE (hand : List Card) : List (Card × Card) → Option (Option (Card × Card × Card))
  | [] => some none
  | (c1, c2) :: rest =>
    match calculate_third_cardE c1 c2 with
    | none => none
    | some c3 =>
      if find_card hand c3 then some (some (c1, c2, c3))
      else searchPairsE hand rest

/-- Exception-aware `Hand.find_set`. -/
def find_setE (hand : List Card) : Option (Option (Card × Card × Card)) :=
  searchPairsE hand
    (pairs (hand.take (hand.length / 2)) ++ pairs (hand.drop (hand.length / 2)))

/-- Exception-aware `Hand.find_set_brute_force`. -/
def find_set_brute_forceE (hand : List Card) : Option (Option (Card × Card × Card)) :=
  searchPairsE hand (pairs hand)

/-- Concrete card `[0, 1, 2, 0]` from `test.py` (`test_valid_SET1`). -/
def cardA : Card := ⟨[0, 1, 2, 0]⟩

/-- Concrete card `[1, 2, 2, 1]` from `test.py` (`test_valid_SET1`). -/
def cardB : Card := ⟨[1, 2, 2, 1]⟩

/-- Concrete card `[2, 0, 2, 2]` from `test.py` (`test_valid_SET1`). -/
def cardC : Card := ⟨[2, 0, 2, 2]⟩

/-- The three-card hand of `test_valid_SET1`, in list order. -/
def testHand : List Card := [cardA, cardB, cardC]

/-- Concrete card `[0, 0, 1, 0]` from `test.py` (`test_invalid_SET1`). -/
def cardD : Card := ⟨[0, 0, 1, 0]⟩

/-- Concrete card `[0, 2, 2, 1]` from `test.py` (`test_invalid_SET1`). -/
def cardE : Card := ⟨[0, 2, 2, 1]⟩

/-- Concrete card `[0, 0, 0, 2]` from `test.py` (`test_invalid_SET1`). -/
def cardF : Card := ⟨[0, 0, 0, 2]⟩

/-- The SET-free three-card hand of `test_invalid_SET1`, in list order. -/
def noSetHand : List Card := [cardD, cardE, cardF]

example : find_set testHand = some (cardB, cardC, cardA) := by decide

example : find_set_brute_force testHand = some (cardA, cardB, cardC) := by decide

example : is_valid_SET cardA cardB cardC = true := by decide

example : thirdValue 0 1 = 2 ∧ thirdValue 2 2 = 2 ∧ thirdValue 1 0 = 2 := by decide

/-! ### Basic lemmas about cards and values -/

theorem Card.p_eq (c : Card) : c.p = c.values.length := rfl

theorem getD_lt_three {l : List Nat} (hv : ∀ v ∈ l, v < 3) {i : Nat}
    (hi : i < l.length) : l.getD i 0 < 3 := by
  rw [List.getD_eq_getElem l 0 hi]
  exact hv _ (List.getElem_mem hi)

theorem card_getD_lt {c : Card} (hv : ∀ v ∈ c.values, v < 3) {i : Nat}
    (hi : i < c.p) : c.values.getD i 0 < 3 :=
  getD_lt_three hv hi

theorem card_ext {a b : Card} (hlen : a.p = b.p)
    (h : ∀ i, i < a.p → a.values.getD i 0 = b.values.getD i 0) : a = b := by
  obtain ⟨va⟩ := a
  obtain ⟨vb⟩ := b
  simp only [Card.p_eq] at hlen h
  congr 1
  apply List.ext_getElem hlen
  intro i h1 h2
  have h3 := h i h1
  rwa [List.getD_eq_getElem va 0 h1, List.getD_eq_getElem vb 0 h2] at h3

theorem exists_getD_ne {a b : Card} (hlen : a.p = b.p) (hne : a ≠ b) :
    ∃ i, i < a.p ∧ a.values.getD i 0 ≠ b.values.getD i 0 := by
  by_contra h
  push_neg at h
  exact hne (card_ext hlen h)

/-! ### Pointwise facts about `thirdValue`, by finite case analysis -/

theorem thirdValue_lt_three : ∀ x, x < 3 → ∀ y, y < 3 → thirdValue x y < 3 := by
  decide

theorem thirdValue_comm_lt : ∀ x, x < 3 → ∀ y, y < 3 →
    thirdValue x y = thirdValue y x := by
  decide

theorem thirdValue_ne : ∀ x, x < 3 → ∀ y, y < 3 → x ≠ y →
    thirdValue x y ≠ x ∧ thirdValue x y ≠ y := by
  decide

theorem thirdValue_valid : ∀ x, x < 3 → ∀ y, y < 3 →
    propAllSameOrDistinct x y (thirdValue x y) := by
  decide

theorem thirdValue_complete : ∀ x, x < 3 → ∀ y, y < 3 → ∀ z, z < 3 →
    propAllSameOrDistinct x y z →
    z = thirdValue x y ∧ y = thirdValue x z ∧ x = thirdValue y z := by
  decide

theorem thirdValue_unique : ∀ x, x < 3 → ∀ y, y < 3 → ∀ w, w < 3 →
    (x ≠ y ∧ w ≠ x ∧ w ≠ y) → w = thirdValue x y := by
  decide

theorem thirdValue_invol : ∀ x, x < 3 → ∀ y, y < 3 →
    thirdValue x (thirdValue x y) = y := by
  decide

theorem thirdValue_eq_of_eq {x y : Nat} (h : x = y) : thirdValue x y = x := by
  simp [thirdValue, h]

/-! ### Pointwise description of `calculate_third_card` -/

theorem calc_values_length (a b : Card) :
    (calculate_third_card a b).values.length = a.p := by
  simp [calculate_third_card]

theorem calc_p (a b : Card) : (calculate_third_card a b).p = a.p :=
  calc_values_length a b

theorem calc_getD (a b : Card) {i : Nat} (hi : i < a.p) :
    (calculate_third_card a b).values.getD i 0
      = thirdValue (a.values.getD i 0) (b.values.getD i 0) := by
  have hlen : i < ((List.range a.p).map fun j =>
      thirdValue (a.values.getD j 0) (b.values.getD j 0)).length := by
    simpa using hi
  show ((List.range a.p).map fun j =>
      thirdValue (a.values.getD j 0) (b.values.getD j 0)).getD i 0 = _
  rw [List.getD_eq_getElem _ _ hlen, List.getElem_map, List.getElem_range]

/-! ### `is_valid_SET` unfolded to its per-index condition -/

theorem is_valid_SET_iff (c1 c2 c3 : Card) :
    is_valid_SET c1 c2 c3 = true ↔
      ∀ i, i < c1.p → propAllSameOrDistinct (c1.values.getD i 0)
        (c2.values.getD i 0) (c3.values.getD i 0) := by
  simp only [is_valid_SET, List.all_eq_true, List.mem_range,
    Bool.not_eq_true', Bool.and_eq_false_iff, decide_eq_false_iff_not,
    propAllSameOrDistinct]
  constructor
  · intro h i hi hcon
    rcases h i hi with h1 | h1
    · exact h1 hcon.1
    · exact h1 hcon.2
  · intro h i hi
    by_cases h1 : 1 < distinctValueCount
        [c1.values.getD i 0, c2.values.getD i 0, c3.values.getD i 0]
    · exact Or.inr fun h2 => h i hi ⟨h1, h2⟩
    · exact Or.inl h1

/-! ### Algebra of the third-card rule -/

theorem calc_comm {a b : Card} (hlen : a.p = b.p)
    (ha : ∀ v ∈ a.values, v < 3) (hb : ∀ v ∈ b.values, v < 3) :
    calculate_third_card a b = calculate_third_card b a := by
  apply card_ext
  · rw [calc_p, calc_p, hlen]
  · intro i hi
    rw [calc_p] at hi
    have hib : i < b.p := by rw [hlen] at hi; exact hi
    rw [calc_getD a b hi, calc_getD b a hib]
    exact thirdValue_comm_lt _ (card_getD_lt ha hi) _ (card_getD_lt hb hib)

theorem calc_valid {a b : Card} (hlen : a.p = b.p)
    (ha : ∀ v ∈ a.values, v < 3) (hb : ∀ v ∈ b.values, v < 3) :
    is_valid_SET a b (calculate_third_card a b) = true := by
  rw [is_valid_SET_iff]
  intro i hi
  have hib : i < b.p := by rw [hlen] at hi; exact hi
  rw [calc_getD a b hi]
  exact thirdValue_valid _ (card_getD_lt ha hi) _ (card_getD_lt hb hib)

theorem calc_ne {a b : Card} (hlen : a.p = b.p) (hne : a ≠ b)
    (ha : ∀ v ∈ a.values, v < 3) (hb : ∀ v ∈ b.values, v < 3) :
    calculate_third_card a b ≠ a ∧ calculate_third_card a b ≠ b := by
  obtain ⟨i, hi, hne_i⟩ := exists_getD_ne hlen hne
  have hib : i < b.p := by rw [hlen] at hi; exact hi
  have h3 := thirdValue_ne _ (card_getD_lt ha hi) _ (card_getD_lt hb hib) hne_i
  have hgd := calc_getD a b hi
  constructor
  · intro hcontra
    rw [hcontra] at hgd
    exact h3.1 hgd.symm
  · intro hcontra
    rw [hcontra] at hgd
    exact h3.2 hgd.symm

theorem valid_SET_calc {a b c : Card} (hab : b.p = a.p) (hac : c.p = a.p)
    (ha : ∀ v ∈ a.values, v < 3) (hb : ∀ v ∈ b.values, v < 3)
    (hc : ∀ v ∈ c.values, v < 3) (hval : is_valid_SET a b c = true) :
    c = calculate_third_card a b ∧ b = calculate_third_card a c ∧
      a = calculate_third_card b c := by
  rw [is_valid_SET_iff] at hval
  have key : ∀ i, i < a.p →
      c.values.getD i 0 = thirdValue (a.values.getD i 0) (b.values.getD i 0) ∧
      b.values.getD i 0 = thirdValue (a.values.getD i 0) (c.values.getD i 0) ∧
      a.values.getD i 0 = thirdValue (b.values.getD i 0) (c.values.getD i 0) := by
    intro i hi
    have hib : i < b.p := by rw [hab]; exact hi
    have hic : i < c.p := by rw [hac]; exact hi
    exact thirdValue_complete _ (card_getD_lt ha hi) _ (card_getD_lt hb hib)
      _ (card_getD_lt hc hic) (hval i hi)
  refine ⟨?_, ?_, ?_⟩
  · apply card_ext (by rw [calc_p, hac])
    intro i hi
    rw [hac] at hi
    rw [calc_getD a b hi]
    exact (key i hi).1
  · apply card_ext (by rw [calc_p, hab])
    intro i hi
    rw [hab] at hi
    rw [calc_getD a c hi]
    exact (key i hi).2.1
  · apply card_ext (by rw [calc_p, hab])
    intro i hi
    have hib : i < b.p := by rw [hab]; exact hi
    rw [calc_getD b c hib]
    exact (key i hi).2.2

/-! ### The pair enumeration -/

theorem mem_of_mem_pairs : ∀ {l : List Card} {x y : Card},
    (x, y) ∈ pairs l → x ∈ l ∧ y ∈ l := by
  intro l
  induction l with
  | nil => intro x y h; simp [pairs] at h
  | cons c rest ih =>
    intro x y h
    simp only [pairs, List.mem_append] at h
    rcases h with h1 | h1
    · obtain ⟨d, hd, heq⟩ := List.mem_map.1 h1
      rw [Prod.mk.injEq] at heq
      obtain ⟨rfl, rfl⟩ := heq
      exact ⟨List.mem_cons_self _ _, List.mem_cons_of_mem _ hd⟩
    · obtain ⟨hx, hy⟩ := ih h1
      exact ⟨List.mem_cons_of_mem _ hx, List.mem_cons_of_mem _ hy⟩

theorem ne_of_mem_pairs : ∀ {l : List Card} {x y : Card},
    l.Nodup → (x, y) ∈ pairs l → x ≠ y := by
  intro l
  induction l with
  | nil => intro x y _ h; simp [pairs] at h
  | cons c rest ih =>
    intro x y hnd h
    obtain ⟨hc, hrest⟩ := List.nodup_cons.1 hnd
    simp only [pairs, List.mem_append] at h
    rcases h with h1 | h1
    · obtain ⟨d, hd, heq⟩ := List.mem_map.1 h1
      rw [Prod.mk.injEq] at heq
      obtain ⟨rfl, rfl⟩ := heq
      intro hxy
      exact hc (hxy ▸ hd)
    · exact ih hrest h1

theorem mem_pairs_of_mem : ∀ {l : List Card} {x y : Card},
    x ∈ l → y ∈ l → x ≠ y → (x, y) ∈ pairs l ∨ (y, x) ∈ pairs l := by
  intro l
  induction l with
  | nil => intro x y hx _ _; simp at hx
  | cons c rest ih =>
    intro x y hx hy hne
    rcases List.mem_cons.1 hx with rfl | hx2
    · rcases List.mem_cons.1 hy with rfl | hy2
      · exact absurd rfl hne
      · exact Or.inl (by
          simp only [pairs, List.mem_append, List.mem_map]
          exact Or.inl ⟨y, hy2, rfl⟩)
    · rcases List.mem_cons.1 hy with rfl | hy2
      · exact Or.inr (by
          simp only [pairs, List.mem_append, List.mem_map]
          exact Or.inl ⟨x, hx2, rfl⟩)
      · rcases ih hx2 hy2 hne with h | h
        · exact Or.inl (by simp only [pairs, List.mem_append]; exact Or.inr h)
        · exact Or.inr (by simp only [pairs, List.mem_append]; exact Or.inr h)

theorem pairs_length : ∀ l : List Card, (pairs l).length = Nat.choose l.length 2 := by
  intro l
  induction l with
  | nil => rfl
  | cons c rest ih =>
    simp only [pairs, List.length_append, List.length_map, ih, List.length_cons]
    rw [Nat.choose_succ_succ rest.length 1, Nat.choose_one_right, Nat.add_comm]

/-! ### The search loop -/

theorem find_card_eq_true {hand : List Card} {c : Card} :
    find_card hand c = true ↔ c ∈ hand := by
  simp [find_card]

theorem searchPairs_none_forall {hand : List Card} : ∀ {ps : List (Card × Card)},
    searchPairs hand ps = none → ∀ c1 c2, (c1, c2) ∈ ps →
      find_card hand (calculate_third_card c1 c2) = false := by
  intro ps
  induction ps with
  | nil => intro _ c1 c2 h; simp at h
  | cons pr rest ih =>
    obtain ⟨a, b⟩ := pr
    intro h c1 c2 hmem
    simp only [searchPairs] at h
    by_cases hf : find_card hand (calculate_third_card a b) = true
    · rw [if_pos hf] at h
      cases h
    · rw [if_neg hf] at h
      rcases List.mem_cons.1 hmem with heq | hmem2
      · rw [Prod.mk.injEq] at heq
        obtain ⟨rfl, rfl⟩ := heq
        simpa using hf
      · exact ih h c1 c2 hmem2

theorem searchPairs_none_of {hand : List Card} : ∀ {ps : List (Card × Card)},
    (∀ c1 c2, (c1, c2) ∈ ps →
      find_card hand (calculate_third_card c1 c2) = false) →
    searchPairs hand ps = none := by
  intro ps
  induction ps with
  | nil => intro _; rfl
  | cons pr rest ih =>
    obtain ⟨a, b⟩ := pr
    intro h
    have hf := h a b (List.mem_cons_self _ _)
    simp only [searchPairs]
    rw [if_neg (by simp [hf])]
    exact ih fun c1 c2 hmem => h c1 c2 (List.mem_cons_of_mem _ hmem)

theorem searchPairs_some_spec {hand : List Card} : ∀ {ps : List (Card × Card)}
    {c1 c2 c3 : Card}, searchPairs hand ps = some (c1, c2, c3) →
    (c1, c2) ∈ ps ∧ c3 = calculate_third_card c1 c2 ∧ find_card hand c3 = true := by
  intro ps
  induction ps with
  | nil => intro c1 c2 c3 h; cases h
  | cons pr rest ih =>
    obtain ⟨a, b⟩ := pr
    intro c1 c2 c3 h
    simp only [searchPairs] at h
    by_cases hf : find_card hand (calculate_third_card a b) = true
    · rw [if_pos hf] at h
      rw [Option.some.injEq, Prod.mk.injEq, Prod.mk.injEq] at h
      obtain ⟨rfl, rfl, rfl⟩ := h
      exact ⟨List.mem_cons_self _ _, rfl, hf⟩
    · rw [if_neg hf] at h
      obtain ⟨hmem, hcalc, hfc⟩ := ih h
      exact ⟨List.mem_cons_of_mem _ hmem, hcalc, hfc⟩

/-! ### Soundness of the search loop -/

theorem searchPairs_sound {hand : List Card} {ps : List (Card × Card)} {p : Nat}
    (hp : ∀ c ∈ hand, c.p = p) (hv : ∀ c ∈ hand, ∀ v ∈ c.values, v < 3)
    (hps : ∀ x y, (x, y) ∈ ps → x ∈ hand ∧ y ∈ hand ∧ x ≠ y)
    {c1 c2 c3 : Card} (h : searchPairs hand ps = some (c1, c2, c3)) :
    c1 ∈ hand ∧ c2 ∈ hand ∧ c3 ∈ hand ∧ c1 ≠ c2 ∧ c1 ≠ c3 ∧ c2 ≠ c3 ∧
      is_valid_SET c1 c2 c3 = true := by
  obtain ⟨hmem, hcalc, hfc⟩ := searchPairs_some_spec h
  obtain ⟨h1, h2, hne⟩ := hps c1 c2 hmem
  have h3mem : c3 ∈ hand := find_card_eq_true.1 hfc
  have hlen : c1.p = c2.p := by rw [hp c1 h1, hp c2 h2]
  have hval := calc_valid hlen (hv c1 h1) (hv c2 h2)
  have hnes := calc_ne hlen hne (hv c1 h1) (hv c2 h2)
  subst hcalc
  exact ⟨h1, h2, h3mem, hne, fun hcon => hnes.1 hcon.symm,
    fun hcon => hnes.2 hcon.symm, hval⟩

theorem searchPairs_hasSET {hand : List Card} {ps : List (Card × Card)} {p : Nat}
    (hp : ∀ c ∈ hand, c.p = p) (hv : ∀ c ∈ hand, ∀ v ∈ c.values, v < 3)
    (hps : ∀ x y, (x, y) ∈ ps → x ∈ hand ∧ y ∈ hand ∧ x ≠ y)
    {t : Card × Card × Card} (h : searchPairs hand ps = some t) : hasSET hand := by
  obtain ⟨c1, c2, c3⟩ := t
  obtain ⟨m1, m2, m3, n12, n13, n23, hval⟩ := searchPairs_sound hp hv hps h
  exact ⟨c1, c2, c3, m1, m2, m3, n12, n13, n23, hval⟩

theorem pairs_side {hand : List Card} (hnd : hand.Nodup) :
    ∀ x y, (x, y) ∈ pairs hand → x ∈ hand ∧ y ∈ hand ∧ x ≠ y := fun _ _ h =>
  ⟨(mem_of_mem_pairs h).1, (mem_of_mem_pairs h).2, ne_of_mem_pairs hnd h⟩

theorem partPairs_side {hand : List Card} (hnd : hand.Nodup) :
    ∀ x y, (x, y) ∈ pairs (hand.take (hand.length / 2)) ++
        pairs (hand.drop (hand.length / 2)) →
      x ∈ hand ∧ y ∈ hand ∧ x ≠ y := by
  intro x y h
  rcases List.mem_append.1 h with h1 | h1
  · have hsub := List.take_sublist (hand.length / 2) hand
    obtain ⟨hx, hy⟩ := mem_of_mem_pairs h1
    exact ⟨hsub.subset hx, hsub.subset hy,
      ne_of_mem_pairs (hnd.sublist hsub) h1⟩
  · have hsub := List.drop_sublist (hand.length / 2) hand
    obtain ⟨hx, hy⟩ := mem_of_mem_pairs h1
    exact ⟨hsub.subset hx, hsub.subset hy,
      ne_of_mem_pairs (hnd.sublist hsub) h1⟩

/-! ### The pigeonhole argument for the partitioned search -/

theorem part_pair_hit {hand part : List Card} {x y z : Card}
    (hx : x ∈ part) (hy : y ∈ part) (hne : x ≠ y) (hz : z ∈ hand)
    (hcalc1 : calculate_third_card x y = z)
    (hcalc2 : calculate_third_card y x = z)
    (hnone : ∀ c1 c2, (c1, c2) ∈ pairs part →
      find_card hand (calculate_third_card c1 c2) = false) : False := by
  rcases mem_pairs_of_mem hx hy hne with hm | hm
  · have hf := hnone x y hm
    rw [hcalc1] at hf
    exact absurd (find_card_eq_true.2 hz) (by simp [hf])
  · have hf := hnone y x hm
    rw [hcalc2] at hf
    exact absurd (find_card_eq_true.2 hz) (by simp [hf])

theorem split_search_hit {hand P1 P2 : List Card} {p : Nat}
    (hsplit : P1 ++ P2 = hand)
    (hp : ∀ c ∈ hand, c.p = p) (hv : ∀ c ∈ hand, ∀ v ∈ c.values, v < 3)
    (hset : hasSET hand)
    (hforall : ∀ c1 c2, (c1, c2) ∈ pairs P1 ++ pairs P2 →
      find_card hand (calculate_third_card c1 c2) = false) : False := by
  obtain ⟨a, b, c, ha, hb, hc, hab, hac, hbc, hval⟩ := hset
  have hlab : b.p = a.p := by rw [hp a ha, hp b hb]
  have hlac : c.p = a.p := by rw [hp a ha, hp c hc]
  have hlbc : c.p = b.p := by rw [hp b hb, hp c hc]
  obtain ⟨hcab, hbac, habc⟩ :=
    valid_SET_calc hlab hlac (hv a ha) (hv b hb) (hv c hc) hval
  have hab1 : calculate_third_card a b = c := hcab.symm
  have hab2 : calculate_third_card b a = c := (calc_comm hlab (hv b hb) (hv a ha)).trans hab1
  have hac1 : calculate_third_card a c = b := hbac.symm
  have hac2 : calculate_third_card c a = b := (calc_comm hlac (hv c hc) (hv a ha)).trans hac1
  have hbc1 : calculate_third_card b c = a := habc.symm
  have hbc2 : calculate_third_card c b = a := (calc_comm hlbc (hv c hc) (hv b hb)).trans hbc1
  have hnone1 : ∀ c1 c2, (c1, c2) ∈ pairs P1 →
      find_card hand (calculate_third_card c1 c2) = false :=
    fun c1 c2 hm => hforall c1 c2 (List.mem_append.2 (Or.inl hm))
  have hnone2 : ∀ c1 c2, (c1, c2) ∈ pairs P2 →
      find_card hand (calculate_third_card c1 c2) = false :=
    fun c1 c2 hm => hforall c1 c2 (List.mem_append.2 (Or.inr hm))
  have hamem : a ∈ P1 ++ P2 := by rw [hsplit]; exact ha
  have hbmem : b ∈ P1 ++ P2 := by rw [hsplit]; exact hb
  have hcmem : c ∈ P1 ++ P2 := by rw [hsplit]; exact hc
  rcases List.mem_append.1 hamem with ha' | ha' <;>
    rcases List.mem_append.1 hbmem with hb' | hb'
  · exact part_pair_hit ha' hb' hab hc hab1 hab2 hnone1
  · rcases List.mem_append.1 hcmem with hc' | hc'
    · exact part_pair_hit ha' hc' hac hb hac1 hac2 hnone1
    · exact part_pair_hit hb' hc' hbc ha hbc1 hbc2 hnone2
  · rcases List.mem_append.1 hcmem with hc' | hc'
    · exact part_pair_hit hb' hc' hbc ha hbc1 hbc2 hnone1
    · exact part_pair_hit ha' hc' hac hb hac1 hac2 hnone2
  · exact part_pair_hit ha' hb' hab hc hab1 hab2 hnone2

/-! ### Found-none characterizations of the two searches -/

theorem bf_none_iff {hand : List Card} {p : Nat} (hnd : hand.Nodup)
    (hp : ∀ c ∈ hand, c.p = p) (hv : ∀ c ∈ hand, ∀ v ∈ c.values, v < 3) :
    find_set_brute_force hand = none ↔ ¬hasSET hand := by
  constructor
  · intro h hset
    obtain ⟨a, b, c, ha, hb, hc, hab, hac, hbc, hval⟩ := hset
    have hlab : b.p = a.p := by rw [hp a ha, hp b hb]
    have hlac : c.p = a.p := by rw [hp a ha, hp c hc]
    obtain ⟨hcab, _, _⟩ :=
      valid_SET_calc hlab hlac (hv a ha) (hv b hb) (hv c hc) hval
    have hforall := searchPairs_none_forall h
    rcases mem_pairs_of_mem ha hb hab with hm | hm
    · have hf := hforall a b hm
      rw [← hcab] at hf
      exact absurd (find_card_eq_true.2 hc) (by simp [hf])
    · have hf := hforall b a hm
      rw [calc_comm hlab (hv b hb) (hv a ha), ← hcab] at hf
      exact absurd (find_card_eq_true.2 hc) (by simp [hf])
  · intro h
    cases hres : find_set_brute_force hand with
    | none => rfl
    | some t => exact absurd (searchPairs_hasSET hp hv (pairs_side hnd) hres) h

theorem fs_none_iff {hand : List Card} {p : Nat} (hnd : hand.Nodup)
    (hp : ∀ c ∈ hand, c.p = p) (hv : ∀ c ∈ hand, ∀ v ∈ c.values, v < 3) :
    find_set hand = none ↔ ¬hasSET hand := by
  constructor
  · intro h hset
    exact split_search_hit (List.take_append_drop (hand.length / 2) hand)
      hp hv hset (searchPairs_none_forall h)
  · intro h
    cases hres : find_set hand with
    | none => rfl
    | some t => exact absurd (searchPairs_hasSET hp hv (partPairs_side hnd) hres) h

/-! ### The exception-aware pipeline agrees with the pure one on
same-shape hands -/

theorem thirdValuesE_eq {c1 c2 : Card} : ∀ {l : List Nat},
    (∀ i ∈ l, i < c1.p ∧ i < c2.p) →
    thirdValuesE c1 c2 l = some (l.map fun i =>
      thirdValue (c1.values.getD i 0) (c2.values.getD i 0)) := by
  intro l
  induction l with
  | nil => intro _; rfl
  | cons i rest ih =>
    intro h
    obtain ⟨h1, h2⟩ := h i (List.mem_cons_self _ _)
    have hrest := ih fun j hj => h j (List.mem_cons_of_mem _ hj)
    simp only [thirdValuesE, hrest]
    rw [List.getElem?_eq_getElem h1, List.getElem?_eq_getElem h2]
    rw [List.map_cons, List.getD_eq_getElem _ _ h1, List.getD_eq_getElem _ _ h2]

theorem calculate_third_cardE_eq {c1 c2 : Card} (h : c1.p ≤ c2.p) :
    calculate_third_cardE c1 c2 = some (calculate_third_card c1 c2) := by
  simp only [calculate_third_cardE]
  rw [thirdValuesE_eq fun i hi =>
    ⟨List.mem_range.1 hi, lt_of_lt_of_le (List.mem_range.1 hi) h⟩]
  rfl

theorem searchPairsE_eq {hand : List Card} {p : Nat} : ∀ {ps : List (Card × Card)},
    (∀ x y, (x, y) ∈ ps → x.p = p ∧ y.p = p) →
    searchPairsE hand ps = some (searchPairs hand ps) := by
  intro ps
  induction ps with
  | nil => intro _; rfl
  | cons pr rest ih =>
    obtain ⟨a, b⟩ := pr
    intro h
    obtain ⟨hap, hbp⟩ := h a b (List.mem_cons_self _ _)
    have hle : a.p ≤ b.p := by rw [hap, hbp]
    simp only [searchPairsE, searchPairs, calculate_third_cardE_eq hle]
    by_cases hf : find_card hand (calculate_third_card a b) = true
    · rw [if_pos hf, if_pos hf]
    · rw [if_neg hf, if_neg hf]
      exact ih fun x y hm => h x y (List.mem_cons_of_mem _ hm)

/-! ### Characterization of the Python card equality -/

theorem eqValues_some_true : ∀ {xs ys : List Nat},
    eqValues xs ys = some true ↔ ∃ t, ys = xs ++ t := by
  intro xs
  induction xs with
  | nil => intro ys; simp [eqValues]
  | cons x xs ih =>
    intro ys
    cases ys with
    | nil =>
      simp only [eqValues]
      constructor
      · intro h; cases h
      · rintro ⟨t, ht⟩; cases ht
    | cons y ys =>
      simp only [eqValues]
      by_cases hxy : x = y
      · subst hxy
        rw [if_neg (by simp)]
        rw [ih]
        constructor
        · rintro ⟨t, rfl⟩; exact ⟨t, rfl⟩
        · rintro ⟨t, ht⟩
          rw [List.cons_append, List.cons.injEq] at ht
          exact ⟨t, ht.2⟩
      · rw [if_pos hxy]
        constructor
        · intro h
          rw [Option.some.injEq] at h
          cases h
        · rintro ⟨t, ht⟩
          rw [List.cons_append, List.cons.injEq] at ht
          exact absurd ht.1.symm hxy

theorem eqValues_none : ∀ {xs ys : List Nat},
    eqValues xs ys = none ↔ ∃ t, t ≠ [] ∧ xs = ys ++ t := by
  intro xs
  induction xs with
  | nil =>
    intro ys
    simp only [eqValues]
    constructor
    · intro h; cases h
    · rintro ⟨t, ht, hcat⟩
      exact absurd (List.append_eq_nil.1 hcat.symm).2 ht
  | cons x xs ih =>
    intro ys
    cases ys with
    | nil =>
      simp only [eqValues]
      exact ⟨fun _ => ⟨x :: xs, by simp⟩, fun _ => trivial⟩
    | cons y ys =>
      simp only [eqValues]
      by_cases hxy : x = y
      · subst hxy
        rw [if_neg (by simp)]
        rw [ih]
        constructor
        · rintro ⟨t, ht, rfl⟩; exact ⟨t, ht, rfl⟩
        · rintro ⟨t, ht, hcat⟩
          rw [List.cons_append, List.cons.injEq] at hcat
          exact ⟨t, ht, hcat.2⟩
      · rw [if_pos hxy]
        constructor
        · intro h; cases h
        · rintro ⟨t, _, hcat⟩
          rw [List.cons_append, List.cons.injEq] at hcat
          exact absurd hcat.1 hxy

theorem eqValues_same_length : ∀ {xs ys : List Nat}, xs.length = ys.length →
    eqValues xs ys = some (decide (xs = ys)) := by
  intro xs
  induction xs with
  | nil =>
    intro ys h
    cases ys with
    | nil => rfl
    | cons y ys => cases h
  | cons x xs ih =>
    intro ys h
    cases ys with
    | nil => cases h
    | cons y ys =>
      simp only [eqValues]
      by_cases hxy : x = y
      · subst hxy
        rw [if_neg (by simp)]
        rw [ih (by simpa using h)]
        simp
      · rw [if_pos hxy]
        simp [hxy]

/-! ### The claims -/

/-- C1: for every hand — a duplicate-free list of same-shape cards with
values in `[0, 3)` — `find_set` returns `none` iff `find_set_brute_force`
returns `none`: the partitioned strategy, which enumerates only pairs
within each of the two halves of the hand's ordered list, misses no SET
that brute force finds (pigeonhole: any 3-card SET has at least two cards
in the same half, and the third card is membership-tested against the
whole hand). -/
theorem C1_find_set_none_iff_brute_force_none (hand : List Card) (p : Nat)
    (hnd : hand.Nodup) (hp : ∀ c ∈ hand, c.p = p)
    (hv : ∀ c ∈ hand, ∀ v ∈ c.values, v < 3) :
    find_set hand = none ↔ find_set_brute_force hand = none := by
  rw [fs_none_iff hnd hp hv, bf_none_iff hnd hp hv]

/-- Witness for C1: the hypotheses and conclusion at the concrete
three-card hand of `test_valid_SET1`. -/
theorem C1_witness :
    testHand.Nodup ∧ (∀ c ∈ testHand, c.p = 4) ∧
      (∀ c ∈ testHand, ∀ v ∈ c.values, v < 3) ∧
      (find_set testHand = none ↔ find_set_brute_force testHand = none) :=
  ⟨by decide, by decide, by decide,
    C1_find_set_none_iff_brute_force_none testHand 4 (by decide) (by decide)
      (by decide)⟩

/-- C2: whenever `find_set` or `find_set_brute_force` returns a triple on a
duplicate-free same-shape hand with values in `[0, 3)`, the three cards are
pairwise distinct, each is a member of the hand, and they form a valid SET;
in particular the derived third card never equals either input card of a
distinct pair even though the code performs no explicit inequality check. -/
theorem C2_search_results_are_valid_SETs (hand : List Card) (p : Nat)
    (hnd : hand.Nodup) (hp : ∀ c ∈ hand, c.p = p)
    (hv : ∀ c ∈ hand, ∀ v ∈ c.values, v < 3) (c1 c2 c3 : Card)
    (h : find_set hand = some (c1, c2, c3) ∨
      find_set_brute_force hand = some (c1, c2, c3)) :
    c1 ∈ hand ∧ c2 ∈ hand ∧ c3 ∈ hand ∧ c1 ≠ c2 ∧ c1 ≠ c3 ∧ c2 ≠ c3 ∧
      is_valid_SET c1 c2 c3 = true := by
  rcases h with h | h
  · exact searchPairs_sound hp hv (partPairs_side hnd) h
  · exact searchPairs_sound hp hv (pairs_side hnd) h

/-- Witness for C2: `find_set` on the `test_valid_SET1` hand returns
`(cardB, cardC, cardA)`, and the conclusion holds there. -/
theorem C2_witness :
    testHand.Nodup ∧ (∀ c ∈ testHand, c.p = 4) ∧
      (∀ c ∈ testHand, ∀ v ∈ c.values, v < 3) ∧
      find_set testHand = some (cardB, cardC, cardA) ∧
      (cardB ∈ testHand ∧ cardC ∈ testHand ∧ cardA ∈ testHand ∧
        cardB ≠ cardC ∧ cardB ≠ cardA ∧ cardC ≠ cardA ∧
        is_valid_SET cardB cardC cardA = true) :=
  ⟨by decide, by decide, by decide, by decide,
    C2_search_results_are_valid_SETs testHand 4 (by decide) (by decide)
      (by decide) cardB cardC cardA (Or.inl (by decide))⟩

/-- C3: on a duplicate-free same-shape hand with values in `[0, 3)`,
`find_set_brute_force` returns `none` iff the hand contains no valid SET at
all, where ground truth quantifies over all 3-element subsets (three
pairwise-distinct member cards) checked with `is_valid_SET`. -/
theorem C3_brute_force_complete (hand : List Card) (p : Nat)
    (hnd : hand.Nodup) (hp : ∀ c ∈ hand, c.p = p)
    (hv : ∀ c ∈ hand, ∀ v ∈ c.values, v < 3) :
    find_set_brute_force hand = none ↔ ¬hasSET hand :=
  bf_none_iff hnd hp hv

/-- Witness for C3: the hypotheses and conclusion at the SET-free hand of
`test_invalid_SET1`. -/
theorem C3_witness :
    noSetHand.Nodup ∧ (∀ c ∈ noSetHand, c.p = 4) ∧
      (∀ c ∈ noSetHand, ∀ v ∈ c.values, v < 3) ∧
      (find_set_brute_force noSetHand = none ↔ ¬hasSET noSetHand) :=
  ⟨by decide, by decide, by decide,
    C3_brute_force_complete noSetHand 4 (by decide) (by decide) (by decide)⟩

/-- C4: for cards `a`, `b` of the same property count with values in
`[0, 3)`, `calculate_third_card a b` is computed independently per property
index: it repeats an agreeing value, and on disagreeing values it produces
the unique value of `{0, 1, 2}` distinct from both; consequently
`calculate_third_card a b` is the unique same-shape completion of `a`, `b`
to a valid SET. -/
theorem C4_calculate_third_card_spec (a b : Card) (hlen : a.p = b.p)
    (ha : ∀ v ∈ a.values, v < 3) (hb : ∀ v ∈ b.values, v < 3) :
    (∀ i, i < a.p →
      (a.values.getD i 0 = b.values.getD i 0 →
        (calculate_third_card a b).values.getD i 0 = a.values.getD i 0) ∧
      (a.values.getD i 0 ≠ b.values.getD i 0 →
        (calculate_third_card a b).values.getD i 0 < 3 ∧
        (calculate_third_card a b).values.getD i 0 ≠ a.values.getD i 0 ∧
        (calculate_third_card a b).values.getD i 0 ≠ b.values.getD i 0 ∧
        ∀ w, w < 3 → w ≠ a.values.getD i 0 → w ≠ b.values.getD i 0 →
          w = (calculate_third_card a b).values.getD i 0)) ∧
    ∀ d : Card, d.p = a.p → (∀ v ∈ d.values, v < 3) →
      (is_valid_SET a b d = true ↔ d = calculate_third_card a b) := by
  constructor
  · intro i hi
    have hib : i < b.p := by rw [hlen] at hi; exact hi
    have hx := card_getD_lt ha hi
    have hy := card_getD_lt hb hib
    rw [calc_getD a b hi]
    constructor
    · intro heq; exact thirdValue_eq_of_eq heq
    · intro hne
      refine ⟨thirdValue_lt_three _ hx _ hy, (thirdValue_ne _ hx _ hy hne).1,
        (thirdValue_ne _ hx _ hy hne).2, ?_⟩
      intro w hw hwa hwb
      exact thirdValue_unique _ hx _ hy _ hw ⟨hne, hwa, hwb⟩
  · intro d hd hdv
    constructor
    · intro hval
      exact (valid_SET_calc hlen.symm hd ha hb hdv hval).1
    · intro hdd
      rw [hdd]
      exact calc_valid hlen ha hb

/-- Witness for C4 at the `test_valid_SET1` cards `[0,1,2,0]`, `[1,2,2,1]`. -/
theorem C4_witness :
    cardA.p = cardB.p ∧ (∀ v ∈ cardA.values, v < 3) ∧
      (∀ v ∈ cardB.values, v < 3) ∧
      (is_valid_SET cardA cardB cardC = true ↔
        cardC = calculate_third_card cardA cardB) :=
  ⟨by decide, by decide, by decide,
    (C4_calculate_third_card_spec cardA cardB (by decide) (by decide)
      (by decide)).2 cardC (by decide) (by decide)⟩

/-- C5: `find_set` splits the hand's ordered card list into two contiguous
halves — the first `⌊n/2⌋` cards and the remaining `⌈n/2⌉` cards — and runs
the search loop over exactly the within-half pairs, all first-half pairs
before any second-half pair (never a cross-half pair); the enumerated pair
list has length `C(⌊n/2⌋, 2) + C(⌈n/2⌉, 2)`, the worst-case number of
checked pairs. -/
theorem C5_find_set_partition_structure (hand : List Card) :
    find_set hand = searchPairs hand
        (pairs (hand.take (hand.length / 2)) ++
          pairs (hand.drop (hand.length / 2))) ∧
    (hand.take (hand.length / 2)).length = hand.length / 2 ∧
    (hand.drop (hand.length / 2)).length = (hand.length + 1) / 2 ∧
    hand.take (hand.length / 2) ++ hand.drop (hand.length / 2) = hand ∧
    (∀ x y, (x, y) ∈ pairs (hand.take (hand.length / 2)) →
      x ∈ hand.take (hand.length / 2) ∧ y ∈ hand.take (hand.length / 2)) ∧
    (∀ x y, (x, y) ∈ pairs (hand.drop (hand.length / 2)) →
      x ∈ hand.drop (hand.length / 2) ∧ y ∈ hand.drop (hand.length / 2)) ∧
    (pairs (hand.take (hand.length / 2)) ++
        pairs (hand.drop (hand.length / 2))).length =
      Nat.choose (hand.length / 2) 2 + Nat.choose ((hand.length + 1) / 2) 2 := by
  refine ⟨rfl, ?_, ?_, List.take_append_drop _ _,
    fun x y h => mem_of_mem_pairs h, fun x y h => mem_of_mem_pairs h, ?_⟩
  · rw [List.length_take]; omega
  · rw [List.length_drop]; omega
  · rw [List.length_append, pairs_length, pairs_length, List.length_take,
      List.length_drop]
    have h1 : min (hand.length / 2) hand.length = hand.length / 2 := by omega
    have h2 : hand.length - hand.length / 2 = (hand.length + 1) / 2 := by omega
    rw [h1, h2]

/-- Witness for C5: the pair-count identity at the `test_valid_SET1` hand
(`n = 3`: one first-half card, two second-half cards, one checked pair). -/
theorem C5_witness :
    (pairs (testHand.take (testHand.length / 2)) ++
        pairs (testHand.drop (testHand.length / 2))).length =
      Nat.choose (testHand.length / 2) 2 +
        Nat.choose ((testHand.length + 1) / 2) 2 :=
  (C5_find_set_partition_structure testHand).2.2.2.2.2.2

/-- C6: for distinct same-shape cards with values in `[0, 3)`,
`calculate_third_card` is symmetric in its arguments, and completing a card
with the computed third card recovers the other input. -/
theorem C6_third_card_symm_involutive (a b : Card) (_hne : a ≠ b)
    (hlen : a.p = b.p) (ha : ∀ v ∈ a.values, v < 3)
    (hb : ∀ v ∈ b.values, v < 3) :
    calculate_third_card a b = calculate_third_card b a ∧
      calculate_third_card a (calculate_third_card a b) = b := by
  refine ⟨calc_comm hlen ha hb, ?_⟩
  apply card_ext
  · rw [calc_p, hlen]
  · intro i hi
    rw [calc_p] at hi
    have hib : i < b.p := by rw [hlen] at hi; exact hi
    rw [calc_getD a (calculate_third_card a b) hi, calc_getD a b hi]
    exact thirdValue_invol _ (card_getD_lt ha hi) _ (card_getD_lt hb hib)

/-- Witness for C6 at the `test_valid_SET1` cards `[0,1,2,0]`, `[1,2,2,1]`. -/
theorem C6_witness :
    cardA ≠ cardB ∧ cardA.p = cardB.p ∧ (∀ v ∈ cardA.values, v < 3) ∧
      (∀ v ∈ cardB.values, v < 3) ∧
      (calculate_third_card cardA cardB = calculate_third_card cardB cardA ∧
        calculate_third_card cardA (calculate_third_card cardA cardB) = cardB) :=
  ⟨by decide, by decide, by decide, by decide,
    C6_third_card_symm_involutive cardA cardB (by decide) (by decide)
      (by decide) (by decide)⟩

/-- C7 counterexample: `Card.__eq__` does not check lengths and can raise.
`Card([0]) == Card([0, 1])` returns `True` although the lengths differ,
and `Card([0, 1]) == Card([0])` raises `IndexError` (modelled `none`)
instead of returning a boolean — refuting both the same-length
characterization and totality of the claimed equality. -/
theorem C7_counterexample :
    Card.eqPy ⟨[0]⟩ ⟨[0, 1]⟩ = some true ∧
      (⟨[0]⟩ : Card).values.length ≠ (⟨[0, 1]⟩ : Card).values.length ∧
      Card.eqPy ⟨[0, 1]⟩ ⟨[0]⟩ = none := by
  decide

/-- C7 (amended): `a == b` returns `True` iff `a.values` is a prefix of
`b.values`; it raises `IndexError` (modelled `none`) exactly when
`b.values` is a proper prefix of `a.values`; for same-length cards it
returns exactly the boolean of element-wise equality. -/
theorem C7_card_eq_amended (a b : Card) :
    (Card.eqPy a b = some true ↔ ∃ t, b.values = a.values ++ t) ∧
    (Card.eqPy a b = none ↔ ∃ t, t ≠ [] ∧ a.values = b.values ++ t) ∧
    (a.p = b.p → Card.eqPy a b = some (decide (a = b))) := by
  refine ⟨eqValues_some_true, eqValues_none, fun h => ?_⟩
  rw [Card.eqPy, eqValues_same_length h]
  by_cases heq : a = b
  · simp [heq]
  · have hne : a.values ≠ b.values := fun hv =>
      heq (by cases a; cases b; simpa using hv)
    simp [heq, hne]

/-- Witness for C7 (amended): the same-length clause at two equal cards. -/
theorem C7_witness :
    Card.eqPy ⟨[0, 1, 2]⟩ ⟨[0, 1, 2]⟩ =
      some (decide ((⟨[0, 1, 2]⟩ : Card) = ⟨[0, 1, 2]⟩)) :=
  (C7_card_eq_amended ⟨[0, 1, 2]⟩ ⟨[0, 1, 2]⟩).2.2 rfl

/-- C8 counterexample: hash consistency fails for cards of different
lengths: `Card([0]) == Card([0, 1])` returns `True`, yet the hash keys
(derived from the value tuples `(0,)` and `(0, 1)`) differ. -/
theorem C8_counterexample :
    Card.eqPy ⟨[0]⟩ ⟨[0, 1]⟩ = some true ∧
      Card.hashKey ⟨[0]⟩ ≠ Card.hashKey ⟨[0, 1]⟩ := by
  decide

/-- C8 (amended): for cards of the same property count, Python equality
implies equal hash keys, so same-shape cards work as set elements and map
keys. -/
theorem C8_hash_consistent_same_shape (a b : Card) (hlen : a.p = b.p)
    (heq : Card.eqPy a b = some true) : Card.hashKey a = Card.hashKey b := by
  rw [Card.eqPy, eqValues_same_length hlen, Option.some.injEq] at heq
  have hv : a.values = b.values := of_decide_eq_true heq
  exact hv

/-- Witness for C8 (amended) at two equal concrete cards. -/
theorem C8_witness : Card.hashKey ⟨[1, 2]⟩ = Card.hashKey ⟨[1, 2]⟩ :=
  C8_hash_consistent_same_shape ⟨[1, 2]⟩ ⟨[1, 2]⟩ rfl (by decide)

/-- C9: on a same-shape hand, failing to find a SET is not an error path:
the exception-aware searches return normally (`some _`, never the `none`
that models an escaping exception) with exactly the pure searches' result,
so absence is signalled by the explicit value `None`. -/
theorem C9_not_found_is_not_an_error (hand : List Card) (p : Nat)
    (hp : ∀ c ∈ hand, c.p = p) :
    find_setE hand = some (find_set hand) ∧
      find_set_brute_forceE hand = some (find_set_brute_force hand) := by
  constructor
  · apply searchPairsE_eq
    intro x y h
    rcases List.mem_append.1 h with h1 | h1
    · obtain ⟨hx, hy⟩ := mem_of_mem_pairs h1
      have hsub := List.take_sublist (hand.length / 2) hand
      exact ⟨hp x (hsub.subset hx), hp y (hsub.subset hy)⟩
    · obtain ⟨hx, hy⟩ := mem_of_mem_pairs h1
      have hsub := List.drop_sublist (hand.length / 2) hand
      exact ⟨hp x (hsub.subset hx), hp y (hsub.subset hy)⟩
  · exact searchPairsE_eq fun x y h =>
      ⟨hp x (mem_of_mem_pairs h).1, hp y (mem_of_mem_pairs h).2⟩

/-- Witness for C9: the hypotheses and conclusion at the SET-free hand of
`test_invalid_SET1`, where both searches return `None` normally. -/
theorem C9_witness :
    (∀ c ∈ noSetHand, c.p = 4) ∧
      (find_setE noSetHand = some (find_set noSetHand) ∧
        find_set_brute_forceE noSetHand = some (find_set_brute_force noSetHand)) :=
  ⟨by decide, C9_not_found_is_not_an_error noSetHand 4 (by decide)⟩

/-- C10: `calculate_third_card` preserves card well-formedness: on
same-shape inputs with values in `[0, 3)` the result has exactly the same
property count and all its values in `[0, 3)`, so the derived cards the
searches test for membership satisfy the `Card` invariant. -/
theorem C10_third_card_wellformed (a b : Card) (hlen : a.p = b.p)
    (ha : ∀ v ∈ a.values, v < 3) (hb : ∀ v ∈ b.values, v < 3) :
    (calculate_third_card a b).values.length = a.p ∧
      ∀ v ∈ (calculate_third_card a b).values, v < 3 := by
  refine ⟨calc_values_length a b, ?_⟩
  intro v hv
  simp only [calculate_third_card, List.mem_map, List.mem_range] at hv
  obtain ⟨i, hi, rfl⟩ := hv
  have hib : i < b.p := by rw [hlen] at hi; exact hi
  exact thirdValue_lt_three _ (card_getD_lt ha hi) _ (card_getD_lt hb hib)

/-- Witness for C10 at the `test_valid_SET1` cards `[0,1,2,0]`, `[1,2,2,1]`. -/
theorem C10_witness :
    cardA.p = cardB.p ∧ (∀ v ∈ cardA.values, v < 3) ∧
      (∀ v ∈ cardB.values, v < 3) ∧
      ((calculate_third_card cardA cardB).values.length = cardA.p ∧
        ∀ v ∈ (calculate_third_card cardA cardB).values, v < 3) :=
  ⟨by decide, by decide, by decide,
    C10_third_card_wellformed cardA cardB (by decide) (by decide) (by decide)⟩

end SETSolver
